import Mathlib

/-!
Verification development for the ai-orchestrator job/step/local-task core.

The definitions below are a shallow embedding of the storage operations in
`src/backend/database.js` (the file-backed store, whose semantics the Vercel
KV/in-memory store in `src/ui/api` and the PostgreSQL store in
`src/backend/database-pg.js` mirror) together with the HTTP route handlers of
the express backend server and of the Vercel API routes.

Conventions of the embedding:
* JS `null`/`undefined` for a nullable field or argument is `Option.none`.
* Timestamps (`now()` in the source) are modelled as an explicit `Nat`
  argument `t` supplied to each mutating operation; wall-clock monotonicity
  becomes an explicit hypothesis where a claim needs it.
* Fresh identifiers (`uuidv4()` in the source) are supplied by the caller
  (`newId : String`, or `freshId : Nat → String` for batch creation).
* Dynamically-typed JSON request fields are modelled by `JVal`, with JS
  truthiness made explicit.
-/

namespace AIOrch

/-- A JSON-ish dynamic value, for request-body fields that JS does not
type-check (notably the `success` field of a result submission). -/
inductive JVal where
  | null : JVal
  | bool : Bool → JVal
  | str : String → JVal
  | num : Int → JVal
deriving Repr, DecidableEq

/-- JS truthiness of a `JVal` (`success ? 'completed' : 'failed'`). -/
def JVal.truthy : JVal → Bool
  | .null => false
  | .bool b => b
  | .str s => !(s == "")
  | .num n => !(n == 0)

/-- The check `typeof success === 'boolean'`. -/
def JVal.isBool : JVal → Bool
  | .bool _ => true
  | _ => false

/-- A job record, as created by `createJob` in `src/backend/database.js`. -/
structure Job where
  id : String
  goal : String
  status : String
  risk_level : String
  require_approval : Bool
  created_at : Nat
  updated_at : Nat
deriving Repr, DecidableEq

/-- One element of the `steps` array supplied to `createStepsForJob`:
the caller provides `role` (optional, defaulted) and `description`. -/
structure StepSpec where
  role : Option String
  description : String
deriving Repr, DecidableEq

/-- A step record, as created by `createStepsForJob` in
`src/backend/database.js`. -/
structure Step where
  id : String
  job_id : String
  step_index : Nat
  role : String
  description : String
  status : String
  logs : Option String
  evidence : Option String
  fix_attempts : Nat
  created_at : Nat
  updated_at : Nat
deriving Repr, DecidableEq

/-- A local executor task record, as created by `createLocalTask`. -/
structure LocalTask where
  id : String
  job_id : String
  step_id : String
  instructions : String
  status : String
  result : Option String
  logs : Option String
  created_at : Nat
  updated_at : Nat
deriving Repr, DecidableEq

/-- The whole JSON document store (`data.json`): three collections. -/
structure Db where
  jobs : List Job
  steps : List Step
  localTasks : List LocalTask
deriving Repr, DecidableEq

/-- Replace the first element satisfying `p` (the JS in-place mutation of the
object returned by `Array.prototype.find`). -/
def replaceFirst {α : Type} (p : α → Bool) (x : α) : List α → List α
  | [] => []
  | y :: ys => if p y then x :: ys else y :: replaceFirst p x ys

/-! ### Job operations (`src/backend/database.js`) -/

/-- Source `createJob(goal, options)`: push a fresh job in status `planning`;
`risk_level` defaults to `low`, `require_approval` defaults to true
(`options.requireApproval !== false`). -/
def createJob (db : Db) (newId goal : String) (riskLevel : Option String)
    (requireApproval : Option Bool) (t : Nat) : Job × Db :=
  let job : Job :=
    { id := newId
      goal := goal
      status := "planning"
      risk_level := riskLevel.getD "low"
      require_approval := requireApproval != some false
      created_at := t
      updated_at := t }
  (job, { db with jobs := db.jobs ++ [job] })

/-- Source `getJobById(id)`: first job with the identifier, else null. -/
def getJobById (db : Db) (id : String) : Option Job :=
  db.jobs.find? (fun j => j.id == id)

/-- Source `updateJobStatus(id, status)`: if the job exists, set its status and
refresh `updated_at`, then save; otherwise touch nothing and return null. -/
def updateJobStatus (db : Db) (id status : String) (t : Nat) : Option Job × Db :=
  match db.jobs.find? (fun j => j.id == id) with
  | none => (none, db)
  | some j =>
      let j' : Job := { j with status := status, updated_at := t }
      (some j', { db with jobs := replaceFirst (fun jb => jb.id == id) j' db.jobs })

/-! ### Step operations (`src/backend/database.js`) -/

/-- The step record built at position `i` of the batch-creation loop. -/
def mkStep (jobId : String) (i : Nat) (spec : StepSpec) (sid : String)
    (t : Nat) : Step :=
  { id := sid
    job_id := jobId
    step_index := i
    role := spec.role.getD "executor"
    description := spec.description
    status := "pending"
    logs := none
    evidence := none
    fix_attempts := 0
    created_at := t
    updated_at := t }

/-- The loop body of `createStepsForJob`, indexing from `i`. -/
def buildSteps (jobId : String) (freshId : Nat → String) (t : Nat) :
    List StepSpec → Nat → List Step
  | [], _ => []
  | spec :: rest, i => mkStep jobId i spec (freshId i) t :: buildSteps jobId freshId t rest (i + 1)

/-- Source `createStepsForJob(jobId, steps)`: append one new `pending` step per
supplied element, with `step_index` counting from 0 in supply order. -/
def createStepsForJob (db : Db) (jobId : String) (specs : List StepSpec)
    (freshId : Nat → String) (t : Nat) : List Step × Db :=
  let newSteps := buildSteps jobId freshId t specs 0
  (newSteps, { db with steps := db.steps ++ newSteps })

/-- Source `getStepById(id)`. -/
def getStepById (db : Db) (id : String) : Option Step :=
  db.steps.find? (fun s => s.id == id)

/-- Head of the steps list after the stable sort by `step_index`: the first
element attaining the minimal index (ties keep original order). -/
def minByIndex : List Step → Option Step
  | [] => none
  | s :: rest =>
      match minByIndex rest with
      | none => some s
      | some m => if s.step_index ≤ m.step_index then some s else some m

/-- Source `getNextPendingStep(jobId)`: filter the job's `pending` steps, sort by
`step_index`, take the first, else null. -/
def getNextPendingStep (db : Db) (jobId : String) : Option Step :=
  minByIndex (db.steps.filter (fun s => s.job_id == jobId && s.status == "pending"))

/-- Source `updateStepStatus(id, status, logs = null, evidence = null)`: set status and
`updated_at`; overwrite `logs`/`evidence` only when the argument is non-null. -/
def updateStepStatus (db : Db) (id status : String) (logs evidence : Option String)
    (t : Nat) : Option Step × Db :=
  match db.steps.find? (fun s => s.id == id) with
  | none => (none, db)
  | some s =>
      let s' : Step :=
        { s with
          status := status
          logs := match logs with | some l => some l | none => s.logs
          evidence := match evidence with | some e => some e | none => s.evidence
          updated_at := t }
      (some s', { db with steps := replaceFirst (fun st => st.id == id) s' db.steps })

/-- Source `incrementStepFixAttempts(id)`. -/
def incrementStepFixAttempts (db : Db) (id : String) (t : Nat) : Option Step × Db :=
  match db.steps.find? (fun s => s.id == id) with
  | none => (none, db)
  | some s =>
      let s' : Step := { s with fix_attempts := s.fix_attempts + 1, updated_at := t }
      (some s', { db with steps := replaceFirst (fun st => st.id == id) s' db.steps })

/-! ### Local task operations (`src/backend/database.js`) -/

/-- Source `createLocalTask(jobId, stepId, instructions)`. -/
def createLocalTask (db : Db) (newId jobId stepId instructions : String)
    (t : Nat) : LocalTask × Db :=
  let task : LocalTask :=
    { id := newId
      job_id := jobId
      step_id := stepId
      instructions := instructions
      status := "pending"
      result := none
      logs := none
      created_at := t
      updated_at := t }
  (task, { db with localTasks := db.localTasks ++ [task] })

/-- Source `getLocalTaskById(id)`. -/
def getLocalTaskById (db : Db) (id : String) : Option LocalTask :=
  db.localTasks.find? (fun x => x.id == id)

/-- Source `updateLocalTaskResult(id, result, logs, success)`: if the task exists,
unconditionally overwrite status (`success ? 'completed' : 'failed'` by JS
truthiness), result and logs — there is no guard on the current status. -/
def updateLocalTaskResult (db : Db) (id : String) (result logs : Option String)
    (success : JVal) (t : Nat) : Option LocalTask × Db :=
  match db.localTasks.find? (fun x => x.id == id) with
  | none => (none, db)
  | some task =>
      let task' : LocalTask :=
        { task with
          status := if success.truthy then "completed" else "failed"
          result := result
          logs := logs
          updated_at := t }
      (some task', { db with localTasks := replaceFirst (fun x => x.id == id) task' db.localTasks })

/-! ### Express backend routes (the `server.js` of the backend) -/

/-- The fixed allowed-status list of `PATCH /jobs/:id/status`. -/
def validStatuses : List String :=
  ["planning", "running", "waiting_approval", "completed", "failed"]

/-- Response of `PATCH /jobs/:id/status`. -/
inductive StatusUpdateResult where
  | invalidStatus : StatusUpdateResult
  | notFound : StatusUpdateResult
  | updated : Job → StatusUpdateResult
deriving Repr, DecidableEq

/-- Route `PATCH /jobs/:id/status`: 400 when the target status is not in
`validStatuses`; otherwise `updateJobStatus`, with 404 when it returns null.
(The Vercel route `PATCH /api/jobs/[id]` has the same logic.) -/
def patchJobStatusRoute (db : Db) (id status : String) (t : Nat) :
    StatusUpdateResult × Db :=
  if validStatuses.contains status then
    match updateJobStatus db id status t with
    | (none, db') => (.notFound, db')
    | (some j, db') => (.updated j, db')
  else (.invalidStatus, db)

/-- Response of `POST /jobs/:id/approve`. -/
inductive ApproveResult where
  | notFound : ApproveResult
  | invalidState : String → ApproveResult
  | approved : Option Job → ApproveResult
deriving Repr, DecidableEq

/-- Route `POST /jobs/:id/approve` (same logic as the Vercel route
`POST /api/jobs/[id]/approve`): 404 if the job is missing; 400 reporting the
current status unless it is exactly `waiting_approval`; otherwise transition
to `running` and respond with the re-fetched job. The best-effort n8n
notification has no effect on the store or the response. -/
def approveRoute (db : Db) (id : String) (t : Nat) : ApproveResult × Db :=
  match getJobById db id with
  | none => (.notFound, db)
  | some job =>
      if job.status == "waiting_approval" then
        let (_, db') := updateJobStatus db job.id "running" t
        (.approved (getJobById db' job.id), db')
      else (.invalidState job.status, db)

/-- Response of `POST /jobs/:id/steps`. -/
inductive CreateStepsResult where
  | badRequest : CreateStepsResult
  | notFound : CreateStepsResult
  | created : List Step → CreateStepsResult
deriving Repr, DecidableEq

/-- Route `POST /jobs/:id/steps`: 400 when the steps array is empty; 404 when the
job is missing; otherwise `createStepsForJob` then `updateJobStatus` to
`running` (two separate `now()` calls: `t1`, `t2`). -/
def createStepsRoute (db : Db) (id : String) (specs : List StepSpec)
    (freshId : Nat → String) (t1 t2 : Nat) : CreateStepsResult × Db :=
  if specs.isEmpty then (.badRequest, db)
  else
    match getJobById db id with
    | none => (.notFound, db)
    | some job =>
        let (created, db1) := createStepsForJob db job.id specs freshId t1
        let (_, db2) := updateJobStatus db1 job.id "running" t2
        (.created created, db2)

/-- Response of a local-task result submission route. -/
inductive TaskResultOutcome where
  | badRequest : TaskResultOutcome
  | notFound : TaskResultOutcome
  | ok : LocalTask → TaskResultOutcome
deriving Repr, DecidableEq

/-- The express backend's `POST /local-tasks/:id/result`: it performs NO
type check on `success` before calling `updateLocalTaskResult` (the request
body's `result` is stringified; `logs` passed through). 404 when missing. -/
def postLocalTaskResultRoute (db : Db) (id : String) (result logs : Option String)
    (success : JVal) (t : Nat) : TaskResultOutcome × Db :=
  match updateLocalTaskResult db id result logs success t with
  | (none, db') => (.notFound, db')
  | (some task, db') => (.ok task, db')

/-- The Vercel API handler of `PATCH /api/local-tasks/[id]` and
`POST /api/local-tasks/[id]/result`: 400 when `typeof success !== 'boolean'`
(store untouched); otherwise `updateLocalTaskResult` with `result || ''` and
`logs || ''`; 404 when the task is missing. -/
def patchLocalTaskRoute (db : Db) (id : String) (result logs : Option String)
    (success : JVal) (t : Nat) : TaskResultOutcome × Db :=
  if success.isBool then
    match updateLocalTaskResult db id (some (result.getD "")) (some (logs.getD "")) success t with
    | (none, db') => (.notFound, db')
    | (some task, db') => (.ok task, db')
  else (.badRequest, db)

/-- Route `POST /jobs/:id/reject` of the database-factory backend server:
404 when the job is missing; otherwise `updateJobStatus(job.id, 'rejected')`
(the request body's `reason` is only logged, never validated) and respond
with the re-fetched job. The `createLog` record goes to the separate logs
collection, outside this embedding of the jobs/steps/local-tasks store, and
the jobs collection is untouched by it. -/
def rejectRoute (db : Db) (id : String) (t : Nat) : Option Job × Db :=
  match getJobById db id with
  | none => (none, db)
  | some job =>
      let (_, db') := updateJobStatus db job.id "rejected" t
      (getJobById db' job.id, db')

/-! ### Helper lemmas -/

theorem find?_replaceFirst {α : Type} (p : α → Bool) (x : α) (l : List α)
    (hx : p x = true) (h : (l.find? p).isSome) :
    (replaceFirst p x l).find? p = some x := by
  induction l with
  | nil => simp [List.find?] at h
  | cons a as ih =>
      by_cases ha : p a = true
      · simp [replaceFirst, ha, hx]
      · have h' : (as.find? p).isSome := by
          rw [List.find?_cons_of_neg as (by simpa using ha)] at h
          exact h
        have ha' : p a = false := by simpa using ha
        simp only [replaceFirst, ha', Bool.false_eq_true, if_false]
        rw [List.find?_cons_of_neg _ (by simp [ha'])]
        exact ih h'

theorem find?_replaceFirst_ne {α : Type} (p q : α → Bool) (x : α) (l : List α)
    (hq : q x = false) (hlp : ∀ y ∈ l, p y = true → q y = false) :
    (replaceFirst p x l).find? q = l.find? q := by
  induction l with
  | nil => rfl
  | cons a as ih =>
      by_cases ha : p a = true
      · have hqa : q a = false := hlp a (List.mem_cons_self a as) ha
        simp [replaceFirst, ha, List.find?, hq, hqa]
      · have ha' : p a = false := by simpa using ha
        by_cases hqa : q a = true
        · simp [replaceFirst, ha', List.find?, hqa]
        · have hqa' : q a = false := by simpa using hqa
          simp [replaceFirst, ha', List.find?, hqa']
          exact ih (fun y hy => hlp y (List.mem_cons_of_mem a hy))

theorem mem_replaceFirst {α : Type} (p : α → Bool) (x : α) (l : List α)
    (z : α) (hz : z ∈ replaceFirst p x l) : z ∈ l ∨ z = x := by
  induction l with
  | nil => simp [replaceFirst] at hz
  | cons a as ih =>
      by_cases ha : p a = true
      · simp [replaceFirst, ha] at hz
        rcases hz with h | h
        · right; exact h
        · left; exact List.mem_cons_of_mem a h
      · have ha' : p a = false := by simpa using ha
        simp [replaceFirst, ha'] at hz
        rcases hz with h | h
        · left; simp [h]
        · rcases ih h with h' | h'
          · left; exact List.mem_cons_of_mem a h'
          · right; exact h'

theorem map_replaceFirst {α β : Type} (p : α → Bool) (x y : α) (l : List α)
    (f : α → β) (hfind : l.find? p = some y) (hfx : f x = f y) :
    (replaceFirst p x l).map f = l.map f := by
  induction l with
  | nil => simp at hfind
  | cons a as ih =>
      by_cases ha : p a = true
      · rw [List.find?_cons_of_pos as ha] at hfind
        have hay : a = y := by simpa using hfind
        subst hay
        simp [replaceFirst, ha, hfx]
      · have ha' : p a = false := by simpa using ha
        rw [List.find?_cons_of_neg as (by simp [ha'])] at hfind
        simp [replaceFirst, ha', Bool.false_eq_true]
        exact ih hfind

theorem buildSteps_length (jobId : String) (freshId : Nat → String) (t : Nat)
    (specs : List StepSpec) (i : Nat) :
    (buildSteps jobId freshId t specs i).length = specs.length := by
  induction specs generalizing i with
  | nil => rfl
  | cons spec rest ih => simp [buildSteps, ih]

theorem buildSteps_map_index (jobId : String) (freshId : Nat → String) (t : Nat)
    (specs : List StepSpec) (i : Nat) :
    (buildSteps jobId freshId t specs i).map (fun s => s.step_index) =
      List.range' i specs.length := by
  induction specs generalizing i with
  | nil => rfl
  | cons spec rest ih => simp [buildSteps, mkStep, List.range'_succ, ih]

theorem buildSteps_map_description (jobId : String) (freshId : Nat → String)
    (t : Nat) (specs : List StepSpec) (i : Nat) :
    (buildSteps jobId freshId t specs i).map (fun s => s.description) =
      specs.map (fun sp => sp.description) := by
  induction specs generalizing i with
  | nil => rfl
  | cons spec rest ih => simp [buildSteps, mkStep, ih]

theorem buildSteps_fields (jobId : String) (freshId : Nat → String) (t : Nat)
    (specs : List StepSpec) (i : Nat) :
    ∀ s ∈ buildSteps jobId freshId t specs i,
      s.status = "pending" ∧ s.fix_attempts = 0 ∧ s.job_id = jobId ∧
      s.created_at = t ∧ s.updated_at = t := by
  induction specs generalizing i with
  | nil => intro s hs; simp [buildSteps] at hs
  | cons spec rest ih =>
      intro s hs
      simp [buildSteps] at hs
      rcases hs with h | h
      · subst h; exact ⟨rfl, rfl, rfl, rfl, rfl⟩
      · exact ih (i + 1) s h

theorem minByIndex_eq_none (l : List Step) : minByIndex l = none ↔ l = [] := by
  cases l with
  | nil => simp [minByIndex]
  | cons s rest =>
      simp only [minByIndex]
      constructor
      · intro h
        cases hm : minByIndex rest with
        | none => rw [hm] at h; simp at h
        | some m => rw [hm] at h; by_cases hc : s.step_index ≤ m.step_index <;> simp [hc] at h
      · intro h; simp at h

theorem minByIndex_mem (l : List Step) :
    ∀ m, minByIndex l = some m → m ∈ l := by
  induction l with
  | nil => intro m h; simp [minByIndex] at h
  | cons s rest ih =>
      intro m h
      simp only [minByIndex] at h
      cases hm : minByIndex rest with
      | none =>
          rw [hm] at h
          simp at h
          simp [h]
      | some m' =>
          rw [hm] at h
          by_cases hc : s.step_index ≤ m'.step_index
          · simp [hc] at h; simp [h]
          · simp [hc] at h
            exact List.mem_cons_of_mem s (h ▸ ih m' hm)

theorem minByIndex_min (l : List Step) :
    ∀ m, minByIndex l = some m → ∀ x ∈ l, m.step_index ≤ x.step_index := by
  induction l with
  | nil => intro m h; simp [minByIndex] at h
  | cons s rest ih =>
      intro m h x hx
      simp only [minByIndex] at h
      cases hm : minByIndex rest with
      | none =>
          rw [hm] at h
          simp at h
          have hrest : rest = [] := (minByIndex_eq_none rest).mp hm
          subst hrest
          simp at hx
          simp [← h, hx]
      | some m' =>
          rw [hm] at h
          by_cases hc : s.step_index ≤ m'.step_index
          · simp [hc] at h
            subst h
            rcases List.mem_cons.mp hx with hxs | hxr
            · simp [hxs]
            · exact le_trans hc (ih m' hm x hxr)
          · simp [hc] at h
            subst h
            rcases List.mem_cons.mp hx with hxs | hxr
            · subst hxs
              omega
            · exact ih m' hm x hxr

/-- Unfolding of `updateJobStatus` on the found branch. -/
theorem updateJobStatus_found (db : Db) (id status : String) (t : Nat) (job : Job)
    (h : db.jobs.find? (fun j => j.id == id) = some job) :
    updateJobStatus db id status t =
      (some { job with status := status, updated_at := t },
       { db with jobs := (replaceFirst (fun jb => jb.id == id)
          ({ job with status := status, updated_at := t }) db.jobs) }) := by
  simp [updateJobStatus, h]

/-- Unfolding of `updateStepStatus` on the found branch. -/
theorem updateStepStatus_found (db : Db) (id status : String)
    (logs evidence : Option String) (t : Nat) (st : Step)
    (h : db.steps.find? (fun s => s.id == id) = some st) :
    updateStepStatus db id status logs evidence t =
      (some { st with
                status := status
                logs := match logs with | some l => some l | none => st.logs
                evidence := match evidence with | some e => some e | none => st.evidence
                updated_at := t },
       { db with steps := (replaceFirst (fun s => s.id == id)
          ({ st with
              status := status
              logs := match logs with | some l => some l | none => st.logs
              evidence := match evidence with | some e => some e | none => st.evidence
              updated_at := t }) db.steps) }) := by
  simp [updateStepStatus, h]

/-- Unfolding of `updateLocalTaskResult` on the found branch. -/
theorem updateLocalTaskResult_found (db : Db) (id : String) (task : LocalTask)
    (r l : Option String) (s : JVal) (t : Nat)
    (h : db.localTasks.find? (fun x => x.id == id) = some task) :
    updateLocalTaskResult db id r l s t =
      (some { task with
                status := if s.truthy then "completed" else "failed"
                result := r
                logs := l
                updated_at := t },
       { db with localTasks := (replaceFirst (fun x => x.id == id)
          ({ task with
              status := if s.truthy then "completed" else "failed"
              result := r
              logs := l
              updated_at := t }) db.localTasks) }) := by
  simp [updateLocalTaskResult, h]

/-! ### Sample data for concrete witnesses -/

def sampleJob : Job :=
  { id := "j1", goal := "build a page", status := "waiting_approval",
    risk_level := "low", require_approval := true, created_at := 0, updated_at := 0 }

def sampleTask : LocalTask :=
  { id := "t1", job_id := "j1", step_id := "s1", instructions := "run it",
    status := "pending", result := none, logs := none,
    created_at := 0, updated_at := 0 }

def mkSampleStep (sid : String) (idx : Nat) (st : String) : Step :=
  { id := sid, job_id := "j1", step_index := idx, role := "executor",
    description := "step", status := st, logs := none, evidence := none,
    fix_attempts := 0, created_at := 0, updated_at := 0 }

def sampleDb : Db :=
  { jobs := [sampleJob]
    steps := [mkSampleStep "s0" 0 "completed", mkSampleStep "s1" 1 "pending",
              mkSampleStep "s2" 2 "pending"]
    localTasks := [sampleTask] }

/-! ### Claim theorems -/

/-- C10: for an identifier not present in the store, each update operation
(`updateJobStatus`, `updateStepStatus`, `incrementStepFixAttempts`,
`updateLocalTaskResult`) returns the null result and leaves the entire
stored state unchanged — nothing is modified and no write occurs. -/
theorem notFound_updates_are_noops (db : Db) (id status : String)
    (logs evidence result rlogs : Option String) (success : JVal) (t : Nat)
    (hj : db.jobs.find? (fun j => j.id == id) = none)
    (hs : db.steps.find? (fun s => s.id == id) = none)
    (ht : db.localTasks.find? (fun x => x.id == id) = none) :
    updateJobStatus db id status t = (none, db) ∧
    updateStepStatus db id status logs evidence t = (none, db) ∧
    incrementStepFixAttempts db id t = (none, db) ∧
    updateLocalTaskResult db id result rlogs success t = (none, db) := by
  refine ⟨?_, ?_, ?_, ?_⟩
  · simp [updateJobStatus, hj]
  · simp [updateStepStatus, hs]
  · simp [incrementStepFixAttempts, hs]
  · simp [updateLocalTaskResult, ht]

/-- Witness for C10 at a concrete store and an absent identifier. -/
theorem notFound_updates_are_noops_witness :
    updateJobStatus sampleDb "zzz" "running" 9 = (none, sampleDb) ∧
    updateStepStatus sampleDb "zzz" "running" none none 9 = (none, sampleDb) ∧
    incrementStepFixAttempts sampleDb "zzz" 9 = (none, sampleDb) ∧
    updateLocalTaskResult sampleDb "zzz" none none (JVal.bool true) 9 = (none, sampleDb) :=
  notFound_updates_are_noops sampleDb "zzz" "running" none none none none
    (JVal.bool true) 9 (by decide) (by decide) (by decide)

/-- Reading a local task back after `updateLocalTaskResult` found it. -/
theorem getLocalTaskById_after_update (db : Db) (id : String) (task : LocalTask)
    (r l : Option String) (s : JVal) (t : Nat)
    (h : db.localTasks.find? (fun x => x.id == id) = some task) :
    getLocalTaskById (updateLocalTaskResult db id r l s t).2 id =
      some { task with
               status := if s.truthy then "completed" else "failed"
               result := r
               logs := l
               updated_at := t } := by
  rw [updateLocalTaskResult_found db id task r l s t h]
  simp only [getLocalTaskById]
  refine find?_replaceFirst (fun x => x.id == id) _ db.localTasks ?_ ?_
  · exact List.find?_some (p := fun (x : LocalTask) => x.id == id) (a := task) h
  · rw [h]; rfl

/-- C2: `updateLocalTaskResult` carries no "already resolved" guard — a
submission on a task that is (or becomes) `completed`/`failed` does not fail
and simply overwrites status, result and logs, so after two submissions the
stored state is that of the one that ran last. -/
theorem submitResult_last_write_wins (db : Db) (id : String) (task0 : LocalTask)
    (r1 l1 r2 l2 : Option String) (s1 s2 : JVal) (t1 t2 : Nat)
    (h : getLocalTaskById db id = some task0) :
    (updateLocalTaskResult db id r1 l1 s1 t1).1 =
      some { task0 with
               status := if s1.truthy then "completed" else "failed"
               result := r1
               logs := l1
               updated_at := t1 } ∧
    (updateLocalTaskResult (updateLocalTaskResult db id r1 l1 s1 t1).2
        id r2 l2 s2 t2).1 =
      some { task0 with
               status := if s2.truthy then "completed" else "failed"
               result := r2
               logs := l2
               updated_at := t2 } ∧
    getLocalTaskById (updateLocalTaskResult
        (updateLocalTaskResult db id r1 l1 s1 t1).2 id r2 l2 s2 t2).2 id =
      some { task0 with
               status := if s2.truthy then "completed" else "failed"
               result := r2
               logs := l2
               updated_at := t2 } := by
  simp only [getLocalTaskById] at h
  have h1 : (updateLocalTaskResult db id r1 l1 s1 t1).2.localTasks.find?
      (fun x => x.id == id) =
      some { task0 with
               status := if s1.truthy then "completed" else "failed"
               result := r1
               logs := l1
               updated_at := t1 } := by
    rw [updateLocalTaskResult_found db id task0 r1 l1 s1 t1 h]
    refine find?_replaceFirst (fun x => x.id == id) _ db.localTasks ?_ ?_
    · exact List.find?_some (p := fun (x : LocalTask) => x.id == id) (a := task0) h
    · rw [h]; rfl
  refine ⟨?_, ?_, ?_⟩
  · rw [updateLocalTaskResult_found db id task0 r1 l1 s1 t1 h]
  · rw [updateLocalTaskResult_found _ id _ r2 l2 s2 t2 h1]
  · rw [getLocalTaskById_after_update _ id _ r2 l2 s2 t2 h1]

/-- Witness for C2: two submissions on the same pending task; the first
resolves it with success, the second still succeeds and overwrites it with
failure — the final stored state is the second write. -/
theorem submitResult_last_write_wins_witness :
    getLocalTaskById (updateLocalTaskResult
        (updateLocalTaskResult sampleDb "t1" (some "ok") (some "log1") (JVal.bool true) 1).2
        "t1" (some "no") (some "log2") (JVal.bool false) 2).2 "t1" =
      some { sampleTask with
               status := "failed"
               result := some "no"
               logs := some "log2"
               updated_at := 2 } :=
  (submitResult_last_write_wins sampleDb "t1" sampleTask (some "ok") (some "log1")
    (some "no") (some "log2") (JVal.bool true) (JVal.bool false) 1 2 (by decide)).2.2

/-- C4: `getNextPendingStep` returns `none` exactly when the job has no
pending step, and any returned step is a pending step of the job of minimal
`step_index`. -/
theorem getNextPendingStep_spec (db : Db) (jobId : String) :
    (getNextPendingStep db jobId = none ↔
      ∀ s ∈ db.steps, ¬(s.job_id = jobId ∧ s.status = "pending")) ∧
    (∀ m, getNextPendingStep db jobId = some m →
      m ∈ db.steps ∧ m.job_id = jobId ∧ m.status = "pending" ∧
      ∀ s ∈ db.steps, s.job_id = jobId → s.status = "pending" →
        m.step_index ≤ s.step_index) := by
  constructor
  · rw [getNextPendingStep, minByIndex_eq_none, List.filter_eq_nil_iff]
    constructor
    · intro hall s hs
      have := hall s hs
      simpa using this
    · intro hall s hs
      have := hall s hs
      simpa using this
  · intro m hm
    rw [getNextPendingStep] at hm
    have hmem := minByIndex_mem _ m hm
    have hmin := minByIndex_min _ m hm
    rw [List.mem_filter] at hmem
    obtain ⟨hmem, hprop⟩ := hmem
    have hprop' : m.job_id = jobId ∧ m.status = "pending" := by simpa using hprop
    refine ⟨hmem, hprop'.1, hprop'.2, ?_⟩
    intro s hs h1 h2
    exact hmin s (List.mem_filter.mpr ⟨hs, by simp [h1, h2]⟩)

/-- Witness for C4 at a concrete store: with step 0 `completed` and steps 1,
2 `pending`, the scheduler returns the step of index 1. -/
theorem getNextPendingStep_spec_witness :
    mkSampleStep "s1" 1 "pending" ∈ sampleDb.steps ∧
    (mkSampleStep "s1" 1 "pending").job_id = "j1" ∧
    (mkSampleStep "s1" 1 "pending").status = "pending" ∧
    ∀ s ∈ sampleDb.steps, s.job_id = "j1" → s.status = "pending" →
      (mkSampleStep "s1" 1 "pending").step_index ≤ s.step_index :=
  (getNextPendingStep_spec sampleDb "j1").2 (mkSampleStep "s1" 1 "pending") (by decide)

/-- C7: on an existing step, `updateStepStatus` sets the status and
`updated_at`, overwrites `logs`/`evidence` only when the argument is non-null
(a null argument keeps the stored value), and leaves every other field
(`step_index`, `role`, `description`, `fix_attempts`, `created_at`)
unchanged. -/
theorem updateStepStatus_frame (db : Db) (id status : String)
    (logs evidence : Option String) (t : Nat) (st : Step)
    (h : getStepById db id = some st) :
    (updateStepStatus db id status logs evidence t).1 =
      some { st with
               status := status
               logs := match logs with | some l => some l | none => st.logs
               evidence := match evidence with | some e => some e | none => st.evidence
               updated_at := t } ∧
    getStepById (updateStepStatus db id status logs evidence t).2 id =
      some { st with
               status := status
               logs := match logs with | some l => some l | none => st.logs
               evidence := match evidence with | some e => some e | none => st.evidence
               updated_at := t } := by
  simp only [getStepById] at h
  refine ⟨?_, ?_⟩
  · rw [updateStepStatus_found db id status logs evidence t st h]
  · rw [updateStepStatus_found db id status logs evidence t st h]
    simp only [getStepById]
    refine find?_replaceFirst (fun s => s.id == id) _ db.steps ?_ ?_
    · exact List.find?_some (p := fun (s : Step) => s.id == id) (a := st) h
    · rw [h]; rfl

/-- Witness for C7: updating step `s1` with non-null logs and a null evidence
argument overwrites the logs, keeps the (absent) evidence, and keeps
`step_index`, `role`, `description`, `fix_attempts` and `created_at`. -/
theorem updateStepStatus_frame_witness :
    (updateStepStatus sampleDb "s1" "running" (some "build log") none 3).1 =
      some { mkSampleStep "s1" 1 "pending" with
               status := "running", logs := some "build log", updated_at := 3 } ∧
    getStepById (updateStepStatus sampleDb "s1" "running" (some "build log") none 3).2 "s1" =
      some { mkSampleStep "s1" 1 "pending" with
               status := "running", logs := some "build log", updated_at := 3 } :=
  updateStepStatus_frame sampleDb "s1" "running" (some "build log") none 3
    (mkSampleStep "s1" 1 "pending") (by decide)

/-- C1: `approve` succeeds exactly when the job's current status is
`waiting_approval`, in which case the job becomes `running`; in any other
status it fails with the 400 invalid-state response reporting the current
status and the store is unchanged. -/
theorem approve_spec (db : Db) (id : String) (t : Nat) (job : Job)
    (h : getJobById db id = some job) :
    (job.status = "waiting_approval" →
      (approveRoute db id t).1 =
        ApproveResult.approved (some { job with status := "running", updated_at := t }) ∧
      getJobById (approveRoute db id t).2 id =
        some { job with status := "running", updated_at := t }) ∧
    (job.status ≠ "waiting_approval" →
      approveRoute db id t = (ApproveResult.invalidState job.status, db)) := by
  have hid : job.id = id := by
    have := List.find?_some (p := fun (j : Job) => j.id == id) (a := job) h
    simpa using this
  subst hid
  have hfound : db.jobs.find? (fun j => j.id == job.id) = some job := h
  constructor
  · intro hw
    have hget : getJobById
        ({ db with jobs := (replaceFirst (fun jb => jb.id == job.id)
            ({ job with status := "running", updated_at := t }) db.jobs) }) job.id =
        some { job with status := "running", updated_at := t } := by
      simp only [getJobById]
      refine find?_replaceFirst (fun jb => jb.id == job.id) _ db.jobs ?_ ?_
      · exact List.find?_some (p := fun (j : Job) => j.id == job.id) (a := job) h
      · rw [hfound]; rfl
    have eroute : approveRoute db job.id t =
        (ApproveResult.approved (some { job with status := "running", updated_at := t }),
         { db with jobs := (replaceFirst (fun jb => jb.id == job.id)
            ({ job with status := "running", updated_at := t }) db.jobs) }) := by
      simp [approveRoute, h, hw,
            updateJobStatus_found db job.id "running" t job hfound, hget]
    rw [eroute]
    exact ⟨rfl, hget⟩
  · intro hnw
    simp [approveRoute, h, beq_iff_eq, hnw]

def planningJob : Job :=
  { sampleJob with id := "j2", status := "planning" }

def planningDb : Db := { jobs := [planningJob], steps := [], localTasks := [] }

/-- Witness for C1: approving the `waiting_approval` job succeeds and makes
it `running`; approving a `planning` job fails reporting `planning` with the
store unchanged. -/
theorem approve_spec_witness :
    ((approveRoute sampleDb "j1" 7).1 =
       ApproveResult.approved (some { sampleJob with status := "running", updated_at := 7 }) ∧
     getJobById (approveRoute sampleDb "j1" 7).2 "j1" =
       some { sampleJob with status := "running", updated_at := 7 }) ∧
    approveRoute planningDb "j2" 7 =
      (ApproveResult.invalidState "planning", planningDb) :=
  ⟨(approve_spec sampleDb "j1" 7 sampleJob (by decide)).1 (by decide),
   (approve_spec planningDb "j2" 7 planningJob (by decide)).2 (by decide)⟩

/-- C3: on an existing job and a non-empty list of N step descriptions, the
step-creation route creates exactly the N new steps appended to the store,
with `step_index` exactly `0..N-1` in supply order, all `pending` with zero
fix attempts, and then sets the job's status to `running`. -/
theorem createSteps_spec (db : Db) (id : String) (specs : List StepSpec)
    (freshId : Nat → String) (t1 t2 : Nat) (job : Job)
    (h : getJobById db id = some job) (hne : specs ≠ []) :
    (createStepsRoute db id specs freshId t1 t2).1 =
      CreateStepsResult.created (buildSteps id freshId t1 specs 0) ∧
    (createStepsRoute db id specs freshId t1 t2).2.steps =
      db.steps ++ buildSteps id freshId t1 specs 0 ∧
    (buildSteps id freshId t1 specs 0).length = specs.length ∧
    (buildSteps id freshId t1 specs 0).map (fun s => s.step_index) =
      List.range specs.length ∧
    (buildSteps id freshId t1 specs 0).map (fun s => s.description) =
      specs.map (fun sp => sp.description) ∧
    (∀ s ∈ buildSteps id freshId t1 specs 0,
      s.status = "pending" ∧ s.fix_attempts = 0 ∧ s.job_id = id) ∧
    getJobById (createStepsRoute db id specs freshId t1 t2).2 id =
      some { job with status := "running", updated_at := t2 } := by
  have hid : job.id = id := by
    have := List.find?_some (p := fun (j : Job) => j.id == id) (a := job) h
    simpa using this
  subst hid
  have hemp : specs.isEmpty = false := by
    cases specs with
    | nil => exact absurd rfl hne
    | cons a as => rfl
  have hfound1 : ({ db with steps := db.steps ++ buildSteps job.id freshId t1 specs 0 } : Db).jobs.find?
      (fun j => j.id == job.id) = some job := h
  have hget : getJobById
      ({ db with
           steps := db.steps ++ buildSteps job.id freshId t1 specs 0,
           jobs := (replaceFirst (fun jb => jb.id == job.id)
             ({ job with status := "running", updated_at := t2 }) db.jobs) }) job.id =
      some { job with status := "running", updated_at := t2 } := by
    simp only [getJobById]
    refine find?_replaceFirst (fun jb => jb.id == job.id) _ db.jobs ?_ ?_
    · exact List.find?_some (p := fun (j : Job) => j.id == job.id) (a := job) h
    · rw [show db.jobs.find? (fun j => j.id == job.id) = some job from h]; rfl
  have eroute : createStepsRoute db job.id specs freshId t1 t2 =
      (CreateStepsResult.created (buildSteps job.id freshId t1 specs 0),
       { db with
           steps := db.steps ++ buildSteps job.id freshId t1 specs 0,
           jobs := (replaceFirst (fun jb => jb.id == job.id)
             ({ job with status := "running", updated_at := t2 }) db.jobs) }) := by
    simp [createStepsRoute, hemp, h, createStepsForJob,
          updateJobStatus_found _ job.id "running" t2 job hfound1]
  refine ⟨?_, ?_, ?_, ?_, ?_, ?_, ?_⟩
  · rw [eroute]
  · rw [eroute]
  · exact buildSteps_length job.id freshId t1 specs 0
  · rw [buildSteps_map_index job.id freshId t1 specs 0, List.range_eq_range']
  · exact buildSteps_map_description job.id freshId t1 specs 0
  · intro s hs
    have hf := buildSteps_fields job.id freshId t1 specs 0 s hs
    exact ⟨hf.1, hf.2.1, hf.2.2.1⟩
  · rw [eroute]
    exact hget

def sampleSpecs : List StepSpec :=
  [{ role := some "planner", description := "plan the page" },
   { role := none, description := "build the page" }]

/-- Witness for C3 at a concrete job and two step descriptions. -/
theorem createSteps_spec_witness :
    (buildSteps "j1" (fun i => String.append "n" (toString i)) 4 sampleSpecs 0).map
        (fun s => s.step_index) = List.range sampleSpecs.length ∧
    getJobById (createStepsRoute sampleDb "j1" sampleSpecs
        (fun i => String.append "n" (toString i)) 4 5).2 "j1" =
      some { sampleJob with status := "running", updated_at := 5 } :=
  ⟨(createSteps_spec sampleDb "j1" sampleSpecs
      (fun i => String.append "n" (toString i)) 4 5 sampleJob (by decide)
      (by decide)).2.2.2.1,
   (createSteps_spec sampleDb "j1" sampleSpecs
      (fun i => String.append "n" (toString i)) 4 5 sampleJob (by decide)
      (by decide)).2.2.2.2.2.2⟩

/-- C5: for an existing job, the generic status-update route rejects with 400
(store unchanged) exactly when the target status is outside the fixed
allowed-status list; any listed status is accepted from any current status. -/
theorem patchJobStatus_spec (db : Db) (id status : String) (t : Nat) (job : Job)
    (h : getJobById db id = some job) :
    (status ∉ validStatuses →
      patchJobStatusRoute db id status t = (StatusUpdateResult.invalidStatus, db)) ∧
    (status ∈ validStatuses →
      (patchJobStatusRoute db id status t).1 =
        StatusUpdateResult.updated { job with status := status, updated_at := t } ∧
      getJobById (patchJobStatusRoute db id status t).2 id =
        some { job with status := status, updated_at := t }) := by
  have hfound : db.jobs.find? (fun j => j.id == id) = some job := h
  constructor
  · intro hnm
    simp [patchJobStatusRoute, hnm]
  · intro hm
    have hget : getJobById
        ({ db with jobs := (replaceFirst (fun jb => jb.id == id)
            ({ job with status := status, updated_at := t }) db.jobs) }) id =
        some { job with status := status, updated_at := t } := by
      simp only [getJobById]
      refine find?_replaceFirst (fun jb => jb.id == id) _ db.jobs ?_ ?_
      · exact List.find?_some (p := fun (j : Job) => j.id == id) (a := job) h
      · rw [hfound]; rfl
    have eroute : patchJobStatusRoute db id status t =
        (StatusUpdateResult.updated { job with status := status, updated_at := t },
         { db with jobs := (replaceFirst (fun jb => jb.id == id)
            ({ job with status := status, updated_at := t }) db.jobs) }) := by
      simp [patchJobStatusRoute, hm, updateJobStatus_found db id status t job hfound]
    rw [eroute]
    exact ⟨rfl, hget⟩

def doneJob : Job :=
  { sampleJob with id := "j3", status := "completed" }

def doneDb : Db := { jobs := [doneJob], steps := [], localTasks := [] }

/-- Witness for C5: the route forces a `completed` job back to `planning`
(membership in the list is the only check), and rejects the unknown status
`bogus` leaving the store unchanged. -/
theorem patchJobStatus_spec_witness :
    (patchJobStatusRoute doneDb "j3" "planning" 9).1 =
      StatusUpdateResult.updated { doneJob with status := "planning", updated_at := 9 } ∧
    getJobById (patchJobStatusRoute doneDb "j3" "planning" 9).2 "j3" =
      some { doneJob with status := "planning", updated_at := 9 } ∧
    patchJobStatusRoute doneDb "j3" "bogus" 9 =
      (StatusUpdateResult.invalidStatus, doneDb) :=
  ⟨((patchJobStatus_spec doneDb "j3" "planning" 9 doneJob (by decide)).2 (by decide)).1,
   ((patchJobStatus_spec doneDb "j3" "planning" 9 doneJob (by decide)).2 (by decide)).2,
   (patchJobStatus_spec doneDb "j3" "bogus" 9 doneJob (by decide)).1 (by decide)⟩

/-- C6 counterexample: on the express backend route, submitting a result for
an existing pending task with the non-boolean `success` value `"yes"` is not
rejected with a 400 — the task is resolved as `completed` by JS truthiness. -/
theorem submitResult_nonBool_cex :
    JVal.isBool (JVal.str "yes") = false ∧
    (postLocalTaskResultRoute sampleDb "t1" (some "r") (some "l") (JVal.str "yes") 1).1 =
      TaskResultOutcome.ok { sampleTask with
        status := "completed", result := some "r", logs := some "l", updated_at := 1 } ∧
    getLocalTaskById (postLocalTaskResultRoute sampleDb "t1" (some "r") (some "l")
        (JVal.str "yes") 1).2 "t1" =
      some { sampleTask with
        status := "completed", result := some "r", logs := some "l", updated_at := 1 } := by
  decide

/-- C6 amended: the Vercel API local-task result handler rejects a
non-boolean `success` with 400 leaving the store unchanged and an unknown id
with 404; the express backend route performs no boolean validation but does
fail with 404 for an unknown id, leaving the store unchanged. -/
theorem localTaskResult_validation_spec (db : Db) (id : String)
    (result logs : Option String) (success : JVal) (t : Nat) :
    (success.isBool = false →
      patchLocalTaskRoute db id result logs success t =
        (TaskResultOutcome.badRequest, db)) ∧
    (success.isBool = true → getLocalTaskById db id = none →
      patchLocalTaskRoute db id result logs success t =
        (TaskResultOutcome.notFound, db)) ∧
    (getLocalTaskById db id = none →
      postLocalTaskResultRoute db id result logs success t =
        (TaskResultOutcome.notFound, db)) := by
  refine ⟨?_, ?_, ?_⟩
  · intro hnb
    simp [patchLocalTaskRoute, hnb]
  · intro hb hnf
    simp only [getLocalTaskById] at hnf
    simp [patchLocalTaskRoute, hb, updateLocalTaskResult, hnf]
  · intro hnf
    simp only [getLocalTaskById] at hnf
    simp [postLocalTaskResultRoute, updateLocalTaskResult, hnf]

/-- Witness for the amended C6 at a concrete store. -/
theorem localTaskResult_validation_spec_witness :
    patchLocalTaskRoute sampleDb "t1" (some "r") (some "l") (JVal.str "yes") 1 =
      (TaskResultOutcome.badRequest, sampleDb) ∧
    patchLocalTaskRoute sampleDb "nope" (some "r") (some "l") (JVal.bool true) 1 =
      (TaskResultOutcome.notFound, sampleDb) ∧
    postLocalTaskResultRoute sampleDb "nope" (some "r") (some "l") (JVal.bool true) 1 =
      (TaskResultOutcome.notFound, sampleDb) :=
  ⟨(localTaskResult_validation_spec sampleDb "t1" (some "r") (some "l")
      (JVal.str "yes") 1).1 (by decide),
   (localTaskResult_validation_spec sampleDb "nope" (some "r") (some "l")
      (JVal.bool true) 1).2.1 (by decide) (by decide),
   (localTaskResult_validation_spec sampleDb "nope" (some "r") (some "l")
      (JVal.bool true) 1).2.2 (by decide)⟩

def dupDb1 : Db :=
  (createStepsForJob { jobs := [sampleJob], steps := [], localTasks := [] } "j1"
    [{ role := none, description := "a" }]
    (fun i => String.append "b1-" (toString i)) 1).2

def dupDb2 : Db :=
  (createStepsForJob dupDb1 "j1"
    [{ role := none, description := "b" }]
    (fun i => String.append "b2-" (toString i)) 2).2

/-- C9 counterexample: invoking `createStepsForJob` twice on the same job
restarts the numbering at 0, so the job's `step_index` values are `[0, 0]` —
neither unique nor contiguous `0..N-1`. -/
theorem stepIndex_not_unique_cex :
    ((dupDb2.steps.filter (fun s => s.job_id == "j1")).map (fun s => s.step_index)) =
      [0, 0] ∧
    ¬ ((dupDb2.steps.filter (fun s => s.job_id == "j1")).map
        (fun s => s.step_index)).Nodup := by
  decide

/-- C9 amended: within one `createStepsForJob` invocation the created steps
are appended with `step_index` exactly `0..N-1` in supply order and no
existing step is modified or renumbered; but a repeated invocation on the
same job restarts numbering at 0, so uniqueness across batches fails. -/
theorem createStepsForJob_single_batch (db : Db) (jobId : String)
    (specs : List StepSpec) (freshId : Nat → String) (t : Nat) :
    (createStepsForJob db jobId specs freshId t).2.steps =
      db.steps ++ (createStepsForJob db jobId specs freshId t).1 ∧
    ((createStepsForJob db jobId specs freshId t).1.map (fun s => s.step_index)) =
      List.range specs.length ∧
    (createStepsForJob db jobId specs freshId t).2.jobs = db.jobs ∧
    (createStepsForJob db jobId specs freshId t).2.localTasks = db.localTasks := by
  refine ⟨rfl, ?_, rfl, rfl⟩
  rw [show (createStepsForJob db jobId specs freshId t).1 =
        buildSteps jobId freshId t specs 0 from rfl,
     buildSteps_map_index, List.range_eq_range']

/-- Lemma: `updateJobStatus` preserves the timestamp invariant when run at a clock
instant that is not before any job's creation, and changes no job's identity
or `created_at`. -/
theorem updateJobStatus_timestamps (db : Db) (id status : String) (t : Nat)
    (hInv : ∀ j ∈ db.jobs, j.created_at ≤ j.updated_at)
    (hclock : ∀ j ∈ db.jobs, j.created_at ≤ t) :
    (∀ j ∈ (updateJobStatus db id status t).2.jobs, j.created_at ≤ j.updated_at) ∧
    (updateJobStatus db id status t).2.jobs.map (fun j => (j.id, j.created_at)) =
      db.jobs.map (fun j => (j.id, j.created_at)) := by
  cases hf : db.jobs.find? (fun j => j.id == id) with
  | none =>
      have e : updateJobStatus db id status t = (none, db) := by
        simp [updateJobStatus, hf]
      rw [e]
      exact ⟨hInv, rfl⟩
  | some j =>
      rw [updateJobStatus_found db id status t j hf]
      constructor
      · intro jb hjb
        rcases mem_replaceFirst _ _ _ _ hjb with hmem | heq
        · exact hInv jb hmem
        · subst heq
          simpa using hclock j (List.mem_of_find?_eq_some hf)
      · exact map_replaceFirst _ _ j db.jobs _ hf rfl

/-- C8: a freshly created job has `created_at = updated_at = t`; the
invariant `created_at ≤ updated_at` holds after creation and after every
mutating job operation (generic status update, approve, reject) run at a
clock instant `t` not before any job's creation; and no mutating operation
ever changes any job's identity or `created_at`. -/
theorem job_timestamps_invariant (db : Db) (t : Nat)
    (hInv : ∀ j ∈ db.jobs, j.created_at ≤ j.updated_at)
    (hclock : ∀ j ∈ db.jobs, j.created_at ≤ t) :
    (∀ newId goal rl ra,
      (createJob db newId goal rl ra t).1.created_at = t ∧
      (createJob db newId goal rl ra t).1.updated_at = t ∧
      (∀ j ∈ (createJob db newId goal rl ra t).2.jobs, j.created_at ≤ j.updated_at) ∧
      (createJob db newId goal rl ra t).2.jobs.map (fun j => (j.id, j.created_at)) =
        db.jobs.map (fun j => (j.id, j.created_at)) ++ [(newId, t)]) ∧
    (∀ id status,
      (∀ j ∈ (updateJobStatus db id status t).2.jobs, j.created_at ≤ j.updated_at) ∧
      (updateJobStatus db id status t).2.jobs.map (fun j => (j.id, j.created_at)) =
        db.jobs.map (fun j => (j.id, j.created_at))) ∧
    (∀ id,
      (∀ j ∈ (approveRoute db id t).2.jobs, j.created_at ≤ j.updated_at) ∧
      (approveRoute db id t).2.jobs.map (fun j => (j.id, j.created_at)) =
        db.jobs.map (fun j => (j.id, j.created_at))) ∧
    (∀ id,
      (∀ j ∈ (rejectRoute db id t).2.jobs, j.created_at ≤ j.updated_at) ∧
      (rejectRoute db id t).2.jobs.map (fun j => (j.id, j.created_at)) =
        db.jobs.map (fun j => (j.id, j.created_at))) := by
  refine ⟨?_, ?_, ?_, ?_⟩
  · intro newId goal rl ra
    refine ⟨rfl, rfl, ?_, ?_⟩
    · intro j hj
      simp [createJob] at hj
      rcases hj with hj | hj
      · exact hInv j hj
      · subst hj
        exact le_refl t
    · simp [createJob]
  · intro id status
    exact updateJobStatus_timestamps db id status t hInv hclock
  · intro id
    cases hg : getJobById db id with
    | none =>
        have e : approveRoute db id t = (ApproveResult.notFound, db) := by
          simp [approveRoute, hg]
        rw [e]
        exact ⟨hInv, rfl⟩
    | some job =>
        by_cases hw : job.status = "waiting_approval"
        · have hts := updateJobStatus_timestamps db job.id "running" t hInv hclock
          cases hu : updateJobStatus db job.id "running" t with
          | mk r db' =>
              have e : (approveRoute db id t).2 = db' := by
                simp [approveRoute, hg, hw, hu]
              rw [e]
              rw [hu] at hts
              simpa using hts
        · have e : approveRoute db id t = (ApproveResult.invalidState job.status, db) := by
            simp [approveRoute, hg, beq_iff_eq, hw]
          rw [e]
          exact ⟨hInv, rfl⟩
  · intro id
    cases hg : getJobById db id with
    | none =>
        have e : rejectRoute db id t = (none, db) := by
          simp [rejectRoute, hg]
        rw [e]
        exact ⟨hInv, rfl⟩
    | some job =>
        have hts := updateJobStatus_timestamps db job.id "rejected" t hInv hclock
        cases hu : updateJobStatus db job.id "rejected" t with
        | mk r db' =>
            have e : (rejectRoute db id t).2 = db' := by
              simp [rejectRoute, hg, hu]
            rw [e]
            rw [hu] at hts
            simpa using hts

/-- Witness for C8: the generic status update on the sample store at clock 5
keeps `updated_at ≥ created_at` for every job and changes no `created_at`. -/
theorem job_timestamps_invariant_witness :
    (∀ j ∈ (updateJobStatus sampleDb "j1" "completed" 5).2.jobs,
      j.created_at ≤ j.updated_at) ∧
    (updateJobStatus sampleDb "j1" "completed" 5).2.jobs.map
        (fun j => (j.id, j.created_at)) =
      sampleDb.jobs.map (fun j => (j.id, j.created_at)) :=
  (job_timestamps_invariant sampleDb 5 (by decide) (by decide)).2.1 "j1" "completed"

end AIOrch
